import Mathlib

/-!
# Verification of the verax validation engine

A shallow embedding of the core of the `verax` Go validation library:
the value classifier (`IsNil`, `IsEmpty`, `getInterface`), the rule
dispatcher (`Validate`), the container iterators (`EachRule.Validate`,
`MapRule.Validate`) and the record field resolver (`ValidateStruct`,
`findStructField`), together with theorems settling the specification
claims about them.

Go values submitted for validation are embedded as the inductive `GoVal`,
Go types (as far as the engine inspects them through reflection) as
`GoType`, and the error values of the external `xrr` error library as
`XErr` (a leaf error with message and code, a code-wrapping node, or the
path-keyed `Fields` container).  Machine reflection kinds are mirrored by
`kindNum`, using the numbering of Go's `reflect.Kind`, because `IsNil`
tests a numeric kind range.  Rules are embedded as a closed inductive
`Rule` covering the skip marker and representative built-in rules of the
library (`Noop`, `Error`, `Required`/`NotEmpty`, `Equal`); rule sets are
lists of rules evaluated left to right.
-/

namespace Verax

/-! ## Error codes (verax.go, map.go) -/

def ECInternal : String := "ECInternal"

def ECInvType : String := "ECInvType"

def ECRequired : String := "ECRequired"

def ECNotEqual : String := "ECNotEqual"

def ECMapKeyMissing : String := "ECMapKeyMissing"

def ECMapKeyUnexpected : String := "ECMapKeyUnexpected"

/-! ## The xrr error model

The `xrr` error library is an external collaborator of the engine; the
spec describes its contract: a leaf error carries a message and a machine
code, `xrr.Wrap` with `WithCode` re-codes an error without changing its
message, and `xrr.Fields` is a path-keyed error container whose `Filter`
turns an empty container into no error.  `GetCode` reads the code of a
leaf or wrapping node; a `Fields` container answers with its own
distinguished code (never `ECInternal`, so field aggregates are never
mistaken for internal errors). -/

inductive XErr where
  | leaf (msg : String) (code : String)
  | wrap (inner : XErr) (code : String)
  | fields (entries : List (String × XErr))
  deriving Repr

/-- `xrr.GetCode`. -/
def XErr.getCode : XErr → String
  | .leaf _ c => c
  | .wrap _ c => c
  | .fields _ => "ECFields"

mutual

/-- The `Error()` rendering of an error, as consumed by
`fmt.Sprintf("%s: %s", name, err)`. -/
def XErr.errMsg : XErr → String
  | .leaf m _ => m
  | .wrap e _ => XErr.errMsg e
  | .fields l => errMsgFields l

def errMsgFields : List (String × XErr) → String
  | [] => ""
  | [(k, e)] => k ++ ": " ++ XErr.errMsg e
  | (k, e) :: r => k ++ ": " ++ XErr.errMsg e ++ "; " ++ errMsgFields r

end

mutual

/-- Structural equality of errors (model-level `==`). -/
def errBeq : XErr → XErr → Bool
  | .leaf m c, .leaf m2 c2 => m == m2 && c == c2
  | .wrap i c, .wrap i2 c2 => errBeq i i2 && c == c2
  | .fields l, .fields l2 => errFieldsBeq l l2
  | _, _ => false

def errFieldsBeq : List (String × XErr) → List (String × XErr) → Bool
  | [], [] => true
  | (k, e) :: r, (k2, e2) :: r2 => k == k2 && errBeq e e2 && errFieldsBeq r r2
  | _, _ => false

end

instance : BEq XErr := ⟨errBeq⟩

/-! ## Go types as the engine inspects them -/

inductive GoType where
  | tInt
  | tString
  | tBool
  | tChan
  | tFunc
  | tAny
  | tInvalid
  | tPtr (elem : GoType)
  | tSlice (elem : GoType)
  | tArray (elem : GoType)
  | tMap (key elem : GoType)
  | tStruct (sname : String) (implValidator : Bool)
  deriving DecidableEq, Repr

/-- Go assignability, restricted to the type fragment of the model: a
value of type `t` is assignable to type `u` when the types are identical
or `u` is the empty interface (`any`), which every type implements. -/
def GoType.assignableTo : GoType → GoType → Bool
  | t, u => t == u || (u == GoType.tAny && t != GoType.tInvalid)

/-- Whether a type implements the `Validator` interface
(`reflect.Type.Implements(validatableType)`); struct types carry the
answer as a flag, and a pointer type implements it when its element type
does (value-receiver method sets). -/
def GoType.implementsValidator : GoType → Bool
  | .tStruct _ b => b
  | .tPtr e => GoType.implementsValidator e
  | _ => false

/-! ## Go values

`structv` carries, besides its type name and declared field count, the
capabilities the engine probes by type assertion: `validator` is the
result its own `Validate() error` would return (`none` when the type does
not implement `Validator`), `isZeroCap` the result of `IsZero() bool`,
`valuerCap` the result of the `driver.Valuer` capability (`some none`
when `Value()` returns an error), and `withCap` the transformed value an
implementation of `ValidateWith(rule)` applies each rule to (`none` when
`WithValidator` is not implemented). -/

inductive GoVal where
  | nilv
  | intv (n : Int)
  | strv (s : String)
  | boolv (b : Bool)
  | chanv (cNil : Bool)
  | funcv (fNil : Bool)
  | ptrv (elemT : GoType) (pointee : Option GoVal)
  | ifacev (inner : Option GoVal)
  | slicev (elemT : GoType) (elems : Option (List GoVal))
  | arrv (elemT : GoType) (elems : List GoVal)
  | mapv (keyT elemT : GoType) (entries : Option (List (GoVal × GoVal)))
  | structv (sname : String) (nfields : Nat) (validator : Option (Option XErr))
      (isZeroCap : Option Bool) (valuerCap : Option (Option GoVal))
      (withCap : Option GoVal)
  deriving Repr

/-- `reflect.TypeOf` on the model values. -/
def goTypeOf : GoVal → GoType
  | .nilv => .tInvalid
  | .intv _ => .tInt
  | .strv _ => .tString
  | .boolv _ => .tBool
  | .chanv _ => .tChan
  | .funcv _ => .tFunc
  | .ptrv t _ => .tPtr t
  | .ifacev _ => .tAny
  | .slicev t _ => .tSlice t
  | .arrv t _ => .tArray t
  | .mapv kt et _ => .tMap kt et
  | .structv n _ va _ _ _ => .tStruct n va.isSome

/-- `reflect.Kind` numbering of Go's reflect package (Invalid = 0,
Chan = 18, Func = 19, Interface = 20, Map = 21, Pointer = 22,
Slice = 23, ...). -/
def kindNum : GoVal → Nat
  | .nilv => 0
  | .boolv _ => 1
  | .intv _ => 2
  | .arrv _ _ => 17
  | .chanv _ => 18
  | .funcv _ => 19
  | .ifacev _ => 20
  | .mapv _ _ _ => 21
  | .ptrv _ _ => 22
  | .slicev _ _ => 23
  | .strv _ => 24
  | .structv _ _ _ _ _ _ => 25

/-- `reflect.Value.IsNil` on the kinds for which it is defined. -/
def reflectIsNil : GoVal → Bool
  | .chanv b => b
  | .funcv b => b
  | .ifacev o => o.isNone
  | .mapv _ _ o => o.isNone
  | .ptrv _ o => o.isNone
  | .slicev _ o => o.isNone
  | _ => false

mutual

/-- `reflect.DeepEqual` on the model: values of different types are never
deeply equal; pointers of the same type compare their pointees; a nil
slice or map is not deeply equal to an empty one. -/
def goValBeq : GoVal → GoVal → Bool
  | .nilv, .nilv => true
  | .intv a, .intv b => a == b
  | .strv a, .strv b => a == b
  | .boolv a, .boolv b => a == b
  | .chanv a, .chanv b => a == b
  | .funcv a, .funcv b => a == b
  | .ptrv t a, .ptrv u b => t == u &&
      (match a, b with
       | none, none => true
       | some x, some y => goValBeq x y
       | _, _ => false)
  | .ifacev a, .ifacev b =>
      (match a, b with
       | none, none => true
       | some x, some y => goValBeq x y
       | _, _ => false)
  | .slicev t a, .slicev u b => t == u &&
      (match a, b with
       | none, none => true
       | some l, some l2 => goValListBeq l l2
       | _, _ => false)
  | .arrv t a, .arrv u b => t == u && goValListBeq a b
  | .mapv kt et a, .mapv kt2 et2 b => kt == kt2 && et == et2 &&
      (match a, b with
       | none, none => true
       | some l, some l2 => goValPairsBeq l l2
       | _, _ => false)
  | .structv n nf va iz vc wc, .structv n2 nf2 va2 iz2 vc2 wc2 =>
      n == n2 && nf == nf2 && va == va2 && iz == iz2 &&
      (match vc, vc2 with
       | none, none => true
       | some none, some none => true
       | some (some x), some (some y) => goValBeq x y
       | _, _ => false) &&
      (match wc, wc2 with
       | none, none => true
       | some x, some y => goValBeq x y
       | _, _ => false)
  | _, _ => false

def goValListBeq : List GoVal → List GoVal → Bool
  | [], [] => true
  | a :: r, b :: r2 => goValBeq a b && goValListBeq r r2
  | _, _ => false

def goValPairsBeq : List (GoVal × GoVal) → List (GoVal × GoVal) → Bool
  | [], [] => true
  | (k, v) :: r, (k2, v2) :: r2 => goValBeq k k2 && goValBeq v v2 && goValPairsBeq r r2
  | _, _ => false

end

/-! ## Value classifier (helpers of the verax package) -/

/-- `IsNil` (part_009): actual nil has no type or value; for values whose
kind lies in the range `Chan..Slice` the result is
`(val.IsNil(), true)`; everything else is `(false, false)`. -/
def IsNil (v : GoVal) : Bool × Bool :=
  match v with
  | .nilv => (true, false)
  | w => if 18 ≤ kindNum w ∧ kindNum w ≤ 23 then (reflectIsNil w, true) else (false, false)

/-- `IsEmpty` (part_009): nil is empty; an `IsZero() bool` capability is
trusted verbatim; a `driver.Valuer` whose `Value()` succeeds delegates to
the returned value; strings/arrays/maps/slices are empty when their
length is zero; interfaces/pointers delegate to the referenced value; a
struct is empty exactly when it declares zero fields; other kinds are
empty when they hold their zero value. -/
def IsEmpty (v : GoVal) : Bool :=
  if (IsNil v).1 then true
  else
    match v with
    | .structv _ _ _ (some z) _ _ => z
    | .structv _ _ _ none (some (some inner)) _ => IsEmpty inner
    | .structv _ nf _ none (some none) _ => nf == 0
    | .structv _ nf _ none none _ => nf == 0
    | .strv s => s.length == 0
    | .arrv _ els => els.length == 0
    | .mapv _ _ (some ents) => ents.length == 0
    | .slicev _ (some els) => els.length == 0
    | .ifacev (some inner) => IsEmpty inner
    | .ptrv _ (some inner) => IsEmpty inner
    | .intv n => n == 0
    | .boolv b => !b
    | _ => false

/-- `getInterface` (part_009): a nil pointer or nil interface becomes the
untyped nil; a non-nil interface yields its dynamic value
(`reflect.Value.Interface()`); every other value, including a non-nil
pointer, is returned as it is. -/
def getInterface : GoVal → GoVal
  | .ptrv _ none => .nilv
  | .ifacev none => .nilv
  | .ifacev (some x) => x
  | v => v

/-- `reflect.Value.Interface()` alone (used by `validateMap`,
`validateSlice` and `MapRule.Validate`, which do not special-case nil
pointers): only an interface-kinded value is unwrapped. -/
def elemInterface : GoVal → GoVal
  | .ifacev none => .nilv
  | .ifacev (some x) => x
  | v => v

/-- Rendering of a model type, standing in for `reflect.Type.String()`. -/
def goTypeStr : GoType → String
  | .tInt => "int"
  | .tString => "string"
  | .tBool => "bool"
  | .tChan => "chan"
  | .tFunc => "func()"
  | .tAny => "interface {}"
  | .tInvalid => "<invalid>"
  | .tPtr e => "*" ++ goTypeStr e
  | .tSlice e => "[]" ++ goTypeStr e
  | .tArray e => "[n]" ++ goTypeStr e
  | .tMap k e => "map[" ++ goTypeStr k ++ "]" ++ goTypeStr e
  | .tStruct n _ => n

/-- `reflect.Value.String()`: the string itself for string kind, a
`<T Value>` placeholder otherwise. -/
def reflString (v : GoVal) : String :=
  match v with
  | .strv s => s
  | w => "<" ++ goTypeStr (goTypeOf w) ++ " Value>"

/-- `mapErrKey` (part_009): nil pointer/interface keys render as the
empty string, non-nil ones as their referenced value's rendering;
integer-kind keys render as decimal text; all other keys use
`reflect.Value.String()`. -/
def mapErrKey : GoVal → String
  | .ptrv _ none => ""
  | .ifacev none => ""
  | .ptrv _ (some x) => reflString x
  | .ifacev (some x) => reflString x
  | .intv n => toString n
  | v => reflString v

mutual

/-- `fmt.Sprintf("%v", v)` on the model values, exact for the scalar
kinds that appear as map keys in the theorems below. -/
def goValFmt : GoVal → String
  | .nilv => "<nil>"
  | .intv n => toString n
  | .strv s => s
  | .boolv b => if b then "true" else "false"
  | .chanv _ => "<chan>"
  | .funcv _ => "<func>"
  | .ptrv _ none => "<nil>"
  | .ptrv _ (some x) => "&" ++ goValFmt x
  | .ifacev none => "<nil>"
  | .ifacev (some x) => goValFmt x
  | .slicev _ none => "[]"
  | .slicev _ (some els) => "[" ++ goValFmtList els ++ "]"
  | .arrv _ els => "[" ++ goValFmtList els ++ "]"
  | .mapv _ _ none => "map[]"
  | .mapv _ _ (some ents) => "map[" ++ goValFmtPairs ents ++ "]"
  | .structv _ _ _ _ _ _ => "{}"

def goValFmtList : List GoVal → String
  | [] => ""
  | [v] => goValFmt v
  | v :: r => goValFmt v ++ " " ++ goValFmtList r

def goValFmtPairs : List (GoVal × GoVal) → String
  | [] => ""
  | [(k, v)] => goValFmt k ++ ":" ++ goValFmt v
  | (k, v) :: r => goValFmt k ++ ":" ++ goValFmt v ++ " " ++ goValFmtPairs r

end

/-! ## setCode (helpers.go) -/

/-- `setCode`: nil stays nil, an empty code changes nothing, an error
already carrying the code is returned unchanged, otherwise the error is
wrapped with the code. -/
def setCode (err : Option XErr) (code : String) : Option XErr :=
  match err with
  | none => none
  | some e =>
    if code = "" then some e
    else if e.getCode = code then some e
    else some (.wrap e code)

/-! ## Rules

The `Rule` interface is instantiated at a closed set of the library's own
rule values: the skip marker (`skipRule`, part_000), `Noop`/`By`-style
always-passing rules, `Error` rules (error.go), `Required`/`NotEmpty`
(part_010) and `Equal` (equal.go).  Each variant carries exactly the
state its Go counterpart holds. -/

inductive Rule where
  | skipR (cond : Bool)
  | noopR
  | errorR (cond : Bool) (err : XErr)
  | requiredR (cond : Bool) (skipNil : Bool) (err : XErr)
  | equalR (cond : Bool) (want : GoVal) (err : XErr)
  deriving Repr

/-- The type assertion `rule.(skipRule)` combined with the marker's
condition: `s, ok := rule.(skipRule); ok && bool(s)`. -/
def isActiveSkip : Rule → Bool
  | .skipR b => b
  | _ => false

/-- `rule.Validate(v)` for each embedded rule variant, following the
respective `Validate` methods of the source. -/
def ruleValidate : Rule → GoVal → Option XErr
  | .skipR _, _ => none
  | .noopR, _ => none
  | .errorR c e, _ => if c then some e else none
  | .requiredR c skipNil e, v =>
      if !c then none
      else if skipNil && (IsNil v).1 then none
      else if IsEmpty v then some e
      else none
  | .equalR c w e, v =>
      if !c then none
      else if goValBeq w v then none
      else some e

/-- The type assertion `v.(Validator)`: the result the value's own
parameterless `Validate()` would return, when the dynamic type implements
the interface.  A pointer or interface delegates to its referenced
value's capability. -/
def asValidator : GoVal → Option (Option XErr)
  | .structv _ _ (some res) _ _ _ => some res
  | .ptrv _ (some inner) => asValidator inner
  | .ifacev (some inner) => asValidator inner
  | _ => none

/-- The type assertion `v.(WithValidator)`: `some w` when the dynamic
type implements `ValidateWith(rule)`, in which case each rule is applied
to the transformed value `w`. -/
def asWithVal : GoVal → Option GoVal
  | .structv _ _ _ _ _ (some w) => some w
  | _ => none

/-! ## The dispatcher `Validate` (part_003) -/

/-- One entry of `xrr.Fields` assignment `ers[k] = e`: replace the
binding for `k` when present, append it otherwise. -/
def upsert : List (String × XErr) → String → XErr → List (String × XErr)
  | [], k, e => [(k, e)]
  | (k2, e2) :: rest, k, e =>
      if k2 == k then (k, e) :: rest else (k2, e2) :: upsert rest k e

/-- `xrr.Fields` lookup by path segment. -/
def lookupF : List (String × XErr) → String → Option XErr
  | [], _ => none
  | (k2, e) :: rest, k => if k2 == k then some e else lookupF rest k

/-- Normalisation of an accumulated aggregate: `len(ers) > 0` returns the
`Fields` error, otherwise nil (`validateMap`/`validateSlice`/`EachRule`
epilogue). -/
def finishFields (ers : List (String × XErr)) : Option XErr :=
  if 0 < ers.length then some (.fields ers) else none

/-- `validateSlice` (part_003): call the `Validator` capability of every
non-nil element, aggregating errors under the decimal index. -/
def validateSliceV : List GoVal → Nat → List (String × XErr) → Option XErr
  | [], _, ers => finishFields ers
  | e :: rest, i, ers =>
      let ev := elemInterface e
      match ev with
      | .nilv => validateSliceV rest (i + 1) ers
      | w =>
          match (asValidator w).getD none with
          | some err => validateSliceV rest (i + 1) (upsert ers (toString i) err)
          | none => validateSliceV rest (i + 1) ers

/-- `validateMap` (part_003): call the `Validator` capability of every
non-nil map element, aggregating errors under the `%v` rendering of the
key. -/
def validateMapV : List (GoVal × GoVal) → List (String × XErr) → Option XErr
  | [], ers => finishFields ers
  | (k, e) :: rest, ers =>
      let mv := elemInterface e
      match mv with
      | .nilv => validateMapV rest ers
      | w =>
          match (asValidator w).getD none with
          | some err => validateMapV rest (upsert ers (goValFmt k) err)
          | none => validateMapV rest ers

/-- The part of `Validate` (part_003) that runs after every rule of the
list has passed: a nil pointer or nil interface is valid; a value
exposing the `Validator` capability delegates entirely to it; a
map/slice/array whose element type implements `Validator` recurses into
its elements; a pointer/interface re-enters `Validate` on its referenced
value with no rules, which lands back here at once (the rule loop of the
recursive `Validate(rv.Elem().Interface())` call is empty).

The source checks, in order: a nil pointer/interface (kind `Ptr` or
`Interface` with `IsNil`), the `Validator` assertion, then a kind switch.
The definition splits those checks over the value's constructors: only
pointers and interfaces can be nil here, only structs (or pointers and
interfaces reaching one, for which `asValidator` already delegates) carry
the `Validator` capability, and the kind switch is the remaining match. -/
def afterRules : GoVal → Option XErr
  | .ptrv _ none => none
  | .ifacev none => none
  | .ptrv _ (some inner) =>
      match asValidator inner with
      | some res => res
      | none => afterRules inner
  | .ifacev (some inner) =>
      match asValidator inner with
      | some res => res
      | none => afterRules inner
  | .structv _ _ (some res) _ _ _ => res
  | .mapv _ et entO =>
      if et.implementsValidator then validateMapV (entO.getD []) [] else none
  | .slicev et elsO =>
      if et.implementsValidator then validateSliceV (elsO.getD []) 0 [] else none
  | .arrv et els =>
      if et.implementsValidator then validateSliceV els 0 [] else none
  | _ => none

/-- `Validate` (part_003): walk the rules left to right; an active skip
marker ends evaluation with success at once; a value exposing
`WithValidator` has each rule delegated to it; the first non-nil error
is returned immediately; when every rule has passed, `afterRules`
handles self-validation and container recursion. -/
def Validate (v : GoVal) : List Rule → Option XErr
  | r :: rest =>
      if isActiveSkip r then none
      else
        match asWithVal v with
        | some w =>
            match ruleValidate r w with
            | some e => some e
            | none => Validate v rest
        | none =>
            match ruleValidate r v with
            | some e => some e
            | none => Validate v rest
  | [] => afterRules v

/-! ## Container iterator: Each (part_006) -/

structure EachRule where
  rules : List Rule

/-- Slice/array loop of `EachRule.Validate`: each element passes through
`getInterface` and is validated against the rules; errors are collected
under the decimal index. -/
def eachLoopSlice (rules : List Rule) :
    List GoVal → Nat → List (String × XErr) → List (String × XErr)
  | [], _, ers => ers
  | e :: rest, i, ers =>
      match Validate (getInterface e) rules with
      | some err => eachLoopSlice rules rest (i + 1) (upsert ers (toString i) err)
      | none => eachLoopSlice rules rest (i + 1) ers

/-- Map loop of `EachRule.Validate`: each element passes through
`getInterface` and is validated against the rules; errors are collected
under `mapErrKey` of the key. -/
def eachLoopMap (rules : List Rule) :
    List (GoVal × GoVal) → List (String × XErr) → List (String × XErr)
  | [], ers => ers
  | (k, e) :: rest, ers =>
      match Validate (getInterface e) rules with
      | some err => eachLoopMap rules rest (upsert ers (mapErrKey k) err)
      | none => eachLoopMap rules rest ers

/-- `EachRule.Validate` (part_006): iterate a map by key or a slice/array
by index, validating every element against the rules; any other kind of
input is rejected with a `must be an iterable` type error. -/
def EachRule.Validate (r : EachRule) (v : GoVal) : Option XErr :=
  match v with
  | .mapv _ _ entO => finishFields (eachLoopMap r.rules (entO.getD []) [])
  | .slicev _ elsO => finishFields (eachLoopSlice r.rules (elsO.getD []) 0 [])
  | .arrv _ els => finishFields (eachLoopSlice r.rules els 0 [])
  | _ => some (.leaf "must be an iterable" ECInvType)

/-! ## Container iterator: Map (map.go) -/

def ErrNotMapPtr : XErr := .leaf "only a map can be validated" ECInternal

def ErrInvKeyType : XErr := .leaf "key not the correct type" ECInternal

def ErrKeyMissing : XErr := .leaf "required key is missing" ECMapKeyMissing

def ErrKeyUnexpected : XErr := .leaf "key not expected" ECMapKeyUnexpected

structure KeyRules where
  key : GoVal
  optional : Bool
  rules : List Rule

structure MapRule where
  keys : List KeyRules
  allowUnknown : Bool

/-- `getErrorKeyName` (map.go): `fmt.Sprintf("%v", key)`. -/
def getErrorKeyName (key : GoVal) : String := goValFmt key

/-- `val.MapIndex(kv)`: look an entry up by key equality. -/
def lookupEntry : List (GoVal × GoVal) → GoVal → Option GoVal
  | [], _ => none
  | (k, e) :: rest, key => if goValBeq k key then some e else lookupEntry rest key

/-- `delete(extraKeys, kr.key)`. -/
def removeKey (l : List GoVal) (key : GoVal) : List GoVal :=
  l.filter (fun k => !goValBeq k key)

/-- The per-binding error of the `MapRule.Validate` loop body: an
internal error when the map's key type is not assignable to the binding
key's type, a missing-key error when a required key is absent, and
otherwise the outcome of validating the value stored at the key. -/
def keyOutcome (kt : GoType) (entries : List (GoVal × GoVal)) (kr : KeyRules) : Option XErr :=
  if !(kt.assignableTo (goTypeOf kr.key)) then some ErrInvKeyType
  else
    match lookupEntry entries kr.key with
    | none => if !kr.optional then some ErrKeyMissing else none
    | some vv => Validate (elemInterface vv) kr.rules

/-- The binding loop of `MapRule.Validate`: an internal-coded outcome
short-circuits with the key's name as a message prefix; other outcomes
accumulate under the key's name; every processed binding key is removed
from the not-yet-covered map keys, which finally (unless unknown keys are
allowed) each contribute a key-unexpected error. -/
def mapLoop (kt : GoType) (entries : List (GoVal × GoVal)) (allowU : Bool) :
    List KeyRules → List GoVal → List (String × XErr) → Option XErr
  | [], extra, ers =>
      let ers2 := if !allowU then
          extra.foldl (fun a k => upsert a (getErrorKeyName k) ErrKeyUnexpected) ers
        else ers
      finishFields ers2
  | kr :: rest, extra, ers =>
      match keyOutcome kt entries kr with
      | some err =>
          if err.getCode = ECInternal then
            some (.leaf (getErrorKeyName kr.key ++ ": " ++ err.errMsg) ECInternal)
          else
            mapLoop kt entries allowU rest
              (if !allowU then removeKey extra kr.key else extra)
              (upsert ers (getErrorKeyName kr.key) err)
      | none =>
          mapLoop kt entries allowU rest
            (if !allowU then removeKey extra kr.key else extra) ers

/-- `MapRule.Validate` (map.go): dereference a pointer argument once;
anything but a map is rejected with an internal error; a nil map is
valid; otherwise run the binding loop with the map's not-yet-covered keys
(tracked only when unknown keys are not allowed). -/
def MapRule.Validate (r : MapRule) (v : GoVal) : Option XErr :=
  let val := match v with
    | .ptrv _ (some inner) => inner
    | .ptrv _ none => GoVal.nilv
    | w => w
  match val with
  | .mapv _ _ none => none
  | .mapv kt _ (some entries) =>
      mapLoop kt entries r.allowUnknown r.keys
        (if !r.allowUnknown then entries.map (fun p => p.1) else []) []
  | _ => some ErrNotMapPtr

/-! ## Record field resolver (part_001)

A declared struct field is embedded as a `FieldNode`: its name, its
struct tags, whether it is anonymous (embedded), the machine address of
its storage inside the struct value (`reflect.Value.UnsafeAddr`), its
declared type, and — when the field holds (or, for an embedded pointer,
points to) a struct value — the field nodes of that sub-struct (`none`
for a nil embedded pointer or a non-struct field). -/

inductive FieldNode where
  | mk (name : String) (tags : List (String × String)) (anonymous : Bool)
      (addr : Nat) (ftype : GoType) (sub : Option (List FieldNode))

def FieldNode.name : FieldNode → String
  | .mk n _ _ _ _ _ => n

def FieldNode.tags : FieldNode → List (String × String)
  | .mk _ t _ _ _ _ => t

def FieldNode.anonymous : FieldNode → Bool
  | .mk _ _ a _ _ _ => a

def FieldNode.addr : FieldNode → Nat
  | .mk _ _ _ a _ _ => a

def FieldNode.ftype : FieldNode → GoType
  | .mk _ _ _ _ t _ => t

def FieldNode.sub : FieldNode → Option (List FieldNode)
  | .mk _ _ _ _ _ s => s

mutual

/-- `findStructField` (part_001): scan the declared fields from the last
to the first; a field whose storage address equals the bound pointer and
whose declared type equals the pointer's pointee type is the match (the
type comparison disambiguates an embedded struct from its first field at
the shared address); an anonymous struct (or non-nil pointer-to-struct)
field is searched recursively.  The recursion below processes the list
front to back and lets a later field's result override, which is the same
precedence as the source's reverse loop with early return. -/
def findStructField : List FieldNode → Nat → GoType → Option FieldNode
  | [], _, _ => none
  | f :: rest, a, t =>
      match findStructField rest a t with
      | some r => some r
      | none => fieldCandidate f a t

/-- The body of the source's loop for one declared field: the address
comparison with the type tie-break, then the dive into an anonymous
sub-struct. -/
def fieldCandidate : FieldNode → Nat → GoType → Option FieldNode
  | .mk n tg anon fa ft sub, a, t =>
      if fa = a ∧ ft = t then some (.mk n tg anon fa ft sub)
      else
        match anon, sub with
        | true, some fs => findStructField fs a t
        | _, _ => none

end

/-- The default `ErrorTag` package variable. -/
def ErrorTag : String := "json"

/-- `reflect.StructTag.Get`. -/
def tagGet (tags : List (String × String)) (k : String) : String :=
  match tags.find? (fun p => p.1 == k) with
  | some p => p.2
  | none => ""

/-- The first component of `strings.SplitN(tag, ",", 2)`: the characters
before the first comma. -/
def beforeComma (s : String) : String :=
  (s.toList.takeWhile (fun c => c ≠ ',')).asString

/-- `getErrorFieldName` (part_001): the value of the field's naming tag
(the per-binding tag, defaulting to `ErrorTag`) up to the first comma,
unless the tag is empty or the ignore marker `-`; the declared field name
otherwise. -/
def getErrorFieldName (fieldTag : String) (f : FieldNode) : String :=
  let ft := if fieldTag = "" then ErrorTag else fieldTag
  let tag := tagGet f.tags ft
  if tag ≠ "" ∧ tag ≠ "-" then
    let c0 := beforeComma tag
    if c0 ≠ "" then c0 else f.name
  else f.name

def ErrNotStructPtr : XErr :=
  .leaf "only a pointer to a struct can be validated" ECInternal

/-- `ErrFieldNotFound(i)` (part_001). -/
def errFieldNotFound (i : Nat) : XErr :=
  .leaf ("the field #" ++ toString i ++ " cannot be found in the struct") ECInternal

/-- `ErrFieldPointer(i)` (part_001). -/
def errFieldPointer (i : Nat) : XErr :=
  .leaf ("field #" ++ toString i ++ " must be specified as a pointer") ECInternal

/-- `FieldRules` (part_001): the binding's `fieldPtr` is embedded by
whether it is a pointer at all, its address (`fv.Pointer()`), its pointee
type (`fv.Elem().Type()`) and the value stored at the address
(`fv.Elem().Interface()`), together with the optional tag override and
the rule set. -/
structure FieldRules where
  isPtr : Bool
  addr : Nat
  elemT : GoType
  value : GoVal
  tag : String
  rules : List Rule

/-- The argument of `ValidateStruct` as the entry checks see it: not a
pointer (or a pointer to a non-struct), a nil pointer, or a pointer to a
struct with the given declared fields. -/
inductive StructArg where
  | notStructPtr
  | nilPtr
  | ptrToStruct (fields : List FieldNode)

/-- The binding loop of `ValidateStruct`: a non-pointer binding or an
unresolvable binding aborts with the respective internal error; a
field whose validation yields an internal-coded error aborts with a new
internal error prefixed by the field's resolved name; other errors
accumulate — entries of a `Fields` error of an anonymous field are merged
directly into the parent's aggregate. -/
def vsLoop (fields : List FieldNode) :
    List FieldRules → Nat → List (String × XErr) → Option XErr
  | [], _, ers => finishFields ers
  | fr :: rest, i, ers =>
      if !fr.isPtr then some (errFieldPointer i)
      else
        match findStructField fields fr.addr fr.elemT with
        | none => some (errFieldNotFound i)
        | some sf =>
            match Validate fr.value fr.rules with
            | none => vsLoop fields rest (i + 1) ers
            | some err =>
                if err.getCode = ECInternal then
                  some (.leaf (getErrorFieldName fr.tag sf ++ ": " ++ err.errMsg) ECInternal)
                else
                  match sf.anonymous, err with
                  | true, .fields es =>
                      vsLoop fields rest (i + 1)
                        (es.foldl (fun a p => upsert a p.1 p.2) ers)
                  | _, _ =>
                      vsLoop fields rest (i + 1)
                        (upsert ers (getErrorFieldName fr.tag sf) err)

/-- `ValidateStruct` (part_001): the argument must be a pointer to a
struct; a nil pointer is valid; the bindings are then resolved and
validated in order by `vsLoop`. -/
def ValidateStruct (arg : StructArg) (frs : List FieldRules) : Option XErr :=
  match arg with
  | .notStructPtr => some ErrNotStructPtr
  | .nilPtr => none
  | .ptrToStruct fields => vsLoop fields frs 0 []

/-! ## Spec-side vocabulary

Definitions following the specification's wording, used to state the
claims independently of the embedded code. -/

/-- The spec's "reference-like kind": pointer, slice, map, channel,
function, interface. -/
def refLike : GoVal → Bool
  | .chanv _ => true
  | .funcv _ => true
  | .ifacev _ => true
  | .mapv _ _ _ => true
  | .ptrv _ _ => true
  | .slicev _ _ => true
  | _ => false

/-! ## Claims about the value classifier -/

/-- C3 (counterexample): the claim predicts `isNil = false` for a typed
nil pointer, because the value carries type information and is not a true
nil interface; the code returns `isNil = true` for it. -/
theorem isNil_claim_counterexample :
    (IsNil (.ptrv .tInt none)).1 = true ∧ GoVal.ptrv .tInt none ≠ GoVal.nilv :=
  ⟨rfl, fun h => GoVal.noConfusion h⟩

/-- C3 (amended): `IsNil v` returns `isNil = true` exactly when `v` is a
true nil interface or holds a nil instance of a reference-like kind
(pointer, slice, map, channel, function, interface), and returns
`isWrapped = true` exactly when `v` is of a reference-like kind at all,
whether or not the held instance is nil. -/
theorem isNil_characterization (v : GoVal) :
    ((IsNil v).1 = true ↔ (v = GoVal.nilv ∨ (refLike v = true ∧ reflectIsNil v = true))) ∧
    ((IsNil v).2 = true ↔ (v ≠ GoVal.nilv ∧ refLike v = true)) := by
  cases v <;> simp [IsNil, refLike, reflectIsNil, kindNum]

/-- C8: a struct value that declares at least one field and exposes
neither an `IsZero() bool` capability nor a `driver.Valuer` capability is
never judged empty, even though the model does not inspect (and therefore
cannot depend on) its field values; a struct declaring zero fields is
always judged empty. -/
theorem isEmpty_struct_by_field_count (sname : String) (nf : Nat)
    (valid : Option (Option XErr)) (withv : Option GoVal) :
    IsEmpty (.structv sname (nf + 1) valid none none withv) = false ∧
    IsEmpty (.structv sname 0 valid none none withv) = true := by
  constructor <;> simp [IsEmpty, IsNil, kindNum]

/-! ## Claims about setCode -/

/-- C9: `setCode` wraps a non-nil error with a non-empty code unless the
error already carries that exact code, in which case it is returned
unchanged; `setCode` of nil is nil, an empty code changes nothing, and
`setCode` is idempotent in the code argument. -/
theorem setCode_contract (e : XErr) (c : String) :
    setCode none c = none ∧
    setCode (some e) "" = some e ∧
    (c ≠ "" → e.getCode ≠ c → setCode (some e) c = some (.wrap e c)) ∧
    (e.getCode = c → setCode (some e) c = some e) ∧
    setCode (setCode (some e) c) c = setCode (some e) c := by
  refine ⟨rfl, by simp [setCode], ?_, ?_, ?_⟩
  · intro hc hne
    simp [setCode, hc, hne]
  · intro hcode
    by_cases hc : c = "" <;> simp [setCode, hc, hcode]
  · by_cases hc : c = ""
    · simp [setCode, hc]
    · by_cases hcode : e.getCode = c
      · simp [setCode, hc, hcode]
      · have h1 : setCode (some e) c = some (.wrap e c) := by simp [setCode, hc, hcode]
        have h2 : XErr.getCode (.wrap e c) = c := rfl
        rw [h1]
        simp [setCode, hc, h2]

/-- Witness for C9 at a concrete error and code. -/
theorem setCode_contract_witness :
    ("MyCode" ≠ "" ∧ XErr.getCode (.leaf "not equal" ECNotEqual) ≠ "MyCode") ∧
    setCode (some (.leaf "not equal" ECNotEqual)) "MyCode"
      = some (.wrap (.leaf "not equal" ECNotEqual) "MyCode") :=
  ⟨⟨by decide, by decide⟩,
    (setCode_contract (.leaf "not equal" ECNotEqual) "MyCode").2.2.1 (by decide) (by decide)⟩

/-! ## Claims about MapRule.Validate on nil maps -/

/-- C10: a nil map, given directly or through a non-nil pointer, is valid
for every `MapRule`, whatever its key bindings and unknown-key policy:
required keys are not reported missing and no unexpected-key errors are
produced. -/
theorem mapRule_nil_map_valid (keys : List KeyRules) (allowU : Bool)
    (kt et pt : GoType) :
    MapRule.Validate ⟨keys, allowU⟩ (.mapv kt et none) = none ∧
    MapRule.Validate ⟨keys, allowU⟩ (.ptrv pt (some (.mapv kt et none))) = none :=
  ⟨rfl, rfl⟩

/-! ## Claims about the dispatcher's skip semantics -/

/-- The observable outcome of one non-skip iteration of the rule loop:
delegated to the value's `WithValidator` capability when present,
otherwise the rule applied to the value directly. -/
def ruleOutcome (v : GoVal) (r : Rule) : Option XErr :=
  match asWithVal v with
  | some w => ruleValidate r w
  | none => ruleValidate r v

theorem ruleOutcome_skip (v : GoVal) (b : Bool) :
    ruleOutcome v (.skipR b) = none := by
  unfold ruleOutcome
  cases asWithVal v <;> rfl

/-- One step of the rule loop of `Validate`, expressed through
`ruleOutcome`. -/
theorem validate_cons (v : GoVal) (r : Rule) (rest : List Rule) :
    Validate v (r :: rest) =
      if isActiveSkip r then none
      else
        match ruleOutcome v r with
        | some e => some e
        | none => Validate v rest := by
  cases hw : asWithVal v <;> by_cases h : isActiveSkip r <;>
    simp [Validate, ruleOutcome, h, hw]

/-- Rules whose outcome is nil are passed over until an active skip
marker is reached, which returns success at once. -/
theorem validate_skip_nil (v : GoVal) :
    ∀ pre post, (∀ r ∈ pre, ruleOutcome v r = none) →
      Validate v (pre ++ Rule.skipR true :: post) = none
  | [], post, _ => by
      rw [List.nil_append, validate_cons]
      rfl
  | q :: pt, post, hall => by
      rw [List.cons_append, validate_cons]
      by_cases h : isActiveSkip q
      · simp [h]
      · simp [h, hall q (by simp)]
        exact validate_skip_nil v pt post (fun x hx => hall x (by simp [hx]))

/-- The first rule with a non-nil outcome, reached with no earlier
failure and no earlier active skip marker, determines the result of
`Validate` regardless of anything after it. -/
theorem validate_first_error (v : GoVal) (r : Rule) (e : XErr)
    (hout : ruleOutcome v r = some e) :
    ∀ p1 rest, (∀ r2 ∈ p1, ruleOutcome v r2 = none) →
      (∀ r2 ∈ p1, isActiveSkip r2 = false) →
      Validate v (p1 ++ r :: rest) = some e
  | [], rest, _, _ => by
      have hns : isActiveSkip r = false := by
        cases r with
        | skipR b =>
            rw [ruleOutcome_skip] at hout
            cases hout
        | noopR => rfl
        | errorR c err => rfl
        | requiredR c s err => rfl
        | equalR c w err => rfl
      rw [List.nil_append, validate_cons]
      simp [hns, hout]
  | q :: pt, rest, hnone, hskip => by
      rw [List.cons_append, validate_cons]
      simp [hskip q (by simp), hnone q (by simp)]
      exact validate_first_error v r e hout pt rest
        (fun x hx => hnone x (by simp [hx])) (fun x hx => hskip x (by simp [hx]))

/-- C1: for every value and every rule list containing the active skip
marker: when no rule before the marker has a non-nil outcome, `Validate`
returns nil no matter what follows the marker (no later rule,
self-validation or container recursion runs); and when some rule before
the marker fails first (with no earlier active skip), `Validate` returns
that first error and the marker is never reached. -/
theorem validate_skip_marker (v : GoVal) (pre post : List Rule) :
    ((∀ r ∈ pre, ruleOutcome v r = none) →
      Validate v (pre ++ Rule.skipR true :: post) = none) ∧
    (∀ p1 r p2 e, pre = p1 ++ r :: p2 →
      (∀ r2 ∈ p1, ruleOutcome v r2 = none) →
      (∀ r2 ∈ p1, isActiveSkip r2 = false) →
      ruleOutcome v r = some e →
      Validate v (pre ++ Rule.skipR true :: post) = some e) := by
  constructor
  · exact fun h => validate_skip_nil v pre post h
  · rintro p1 r p2 e rfl hnone hskip hout
    have hassoc : (p1 ++ r :: p2) ++ Rule.skipR true :: post
        = p1 ++ r :: (p2 ++ Rule.skipR true :: post) := by simp
    rw [hassoc]
    exact validate_first_error v r e hout p1 _ hnone hskip

/-- Witness for C1: an active skip marker hides a failing rule placed
after it, and a failing rule placed before the marker short-circuits. -/
theorem validate_skip_marker_witness :
    Validate (.strv "x")
        ([Rule.noopR] ++ Rule.skipR true :: [Rule.errorR true (.leaf "boom" "EC")]) = none ∧
    Validate (.strv "")
        ([Rule.requiredR true false (.leaf "cannot be blank" ECRequired)]
          ++ Rule.skipR true :: []) = some (.leaf "cannot be blank" ECRequired) :=
  ⟨(validate_skip_marker (.strv "x") [Rule.noopR] [Rule.errorR true (.leaf "boom" "EC")]).1
      (fun r hr => by rcases List.mem_singleton.mp hr with rfl; rfl),
    (validate_skip_marker (.strv "")
        [Rule.requiredR true false (.leaf "cannot be blank" ECRequired)] []).2
      [] (Rule.requiredR true false (.leaf "cannot be blank" ECRequired)) []
      (.leaf "cannot be blank" ECRequired) rfl
      (fun r2 h => absurd h (List.not_mem_nil r2))
      (fun r2 h => absurd h (List.not_mem_nil r2)) rfl⟩

/-! ## Claims about the record field resolver -/

/-- A binding the resolver passes without aborting: it is a pointer, it
resolves to a declared field, and its validation produces no
internal-coded error. -/
def bindingBenign (fields : List FieldNode) (fr : FieldRules) : Prop :=
  fr.isPtr = true ∧
  (findStructField fields fr.addr fr.elemT).isSome = true ∧
  ∀ e, Validate fr.value fr.rules = some e → e.getCode ≠ ECInternal

/-- The resolver loop aborts with the field-not-found error of the first
unresolvable binding, with all previously accumulated results
discarded. -/
theorem vsLoop_not_found (fields : List FieldNode) (fr : FieldRules)
    (hptr : fr.isPtr = true)
    (hnf : findStructField fields fr.addr fr.elemT = none) :
    ∀ pre rest i ers, (∀ fr2 ∈ pre, bindingBenign fields fr2) →
      vsLoop fields (pre ++ fr :: rest) i ers
        = some (errFieldNotFound (i + pre.length))
  | [], rest, i, ers, _ => by
      simp [vsLoop, hptr, hnf]
  | q :: pt, rest, i, ers, hpre => by
      obtain ⟨hq1, hq2, hq3⟩ := hpre q (by simp)
      obtain ⟨sf, hsf⟩ := Option.isSome_iff_exists.mp hq2
      have harith : i + 1 + pt.length = i + (q :: pt).length := by
        simp [List.length_cons]
        omega
      rw [List.cons_append]
      simp only [vsLoop, hq1, Bool.not_true, Bool.false_eq_true, if_false, hsf]
      split
      next hveq =>
          rw [vsLoop_not_found fields fr hptr hnf pt rest (i + 1) _
            (fun x hx => hpre x (by simp [hx])), harith]
      next err hveq =>
          have hne := hq3 err hveq
          rw [if_neg hne]
          split <;>
            rw [vsLoop_not_found fields fr hptr hnf pt rest (i + 1) _
              (fun x hx => hpre x (by simp [hx])), harith]

/-- The resolver loop aborts on the first binding whose validation
yields an internal-coded error, returning a fresh internal error whose
message is the field's resolved name, a colon and the original message;
accumulated results are discarded. -/
theorem vsLoop_internal (fields : List FieldNode) (fr : FieldRules) (sf : FieldNode)
    (e : XErr) (hptr : fr.isPtr = true)
    (hsf : findStructField fields fr.addr fr.elemT = some sf)
    (hv : Validate fr.value fr.rules = some e)
    (hcode : e.getCode = ECInternal) :
    ∀ pre rest i ers, (∀ fr2 ∈ pre, bindingBenign fields fr2) →
      vsLoop fields (pre ++ fr :: rest) i ers
        = some (.leaf (getErrorFieldName fr.tag sf ++ ": " ++ e.errMsg) ECInternal)
  | [], rest, i, ers, _ => by
      simp [vsLoop, hptr, hsf, hv, hcode]
  | q :: pt, rest, i, ers, hpre => by
      obtain ⟨hq1, hq2, hq3⟩ := hpre q (by simp)
      obtain ⟨sfq, hsfq⟩ := Option.isSome_iff_exists.mp hq2
      rw [List.cons_append]
      simp only [vsLoop, hq1, Bool.not_true, Bool.false_eq_true, if_false, hsfq]
      split
      next hveq =>
          exact vsLoop_internal fields fr sf e hptr hsf hv hcode pt rest (i + 1) _
            (fun x hx => hpre x (by simp [hx]))
      next err hveq =>
          have hne := hq3 err hveq
          rw [if_neg hne]
          split <;>
            exact vsLoop_internal fields fr sf e hptr hsf hv hcode pt rest (i + 1) _
              (fun x hx => hpre x (by simp [hx]))

/-- C4: when a binding supplies a pointer whose address and pointee type
match no declared field (searching recursively through anonymous
embedded sub-structs, ties at a shared address broken by the declared
type), and every earlier binding resolves and validates without an
internal error, `ValidateStruct` returns the field-not-found error — a
leaf error coded `ECInternal` — as the sole result, never merged into a
`Fields` aggregate. -/
theorem validateStruct_field_not_found (fields : List FieldNode)
    (pre post : List FieldRules) (fr : FieldRules)
    (hpre : ∀ fr2 ∈ pre, bindingBenign fields fr2)
    (hptr : fr.isPtr = true)
    (hnf : findStructField fields fr.addr fr.elemT = none) :
    ValidateStruct (.ptrToStruct fields) (pre ++ fr :: post)
      = some (errFieldNotFound pre.length) ∧
    (errFieldNotFound pre.length).getCode = ECInternal := by
  constructor
  · show vsLoop fields (pre ++ fr :: post) 0 [] = _
    rw [vsLoop_not_found fields fr hptr hnf pre post 0 [] hpre]
    simp
  · rfl

/-- Witness for C4: one binding whose pointer matches no field of a
one-field struct. -/
theorem validateStruct_field_not_found_witness :
    ValidateStruct (.ptrToStruct [.mk "FStr" [] false 0 .tString none])
        ([] ++ FieldRules.mk true 8 .tInt (.intv 0) "" [] :: [])
      = some (errFieldNotFound 0) ∧
    (errFieldNotFound 0).getCode = ECInternal := by
  have h := validateStruct_field_not_found [.mk "FStr" [] false 0 .tString none]
    [] [] (FieldRules.mk true 8 .tInt (.intv 0) "" [])
    (fun fr2 h2 => absurd h2 (List.not_mem_nil fr2)) rfl rfl
  simpa using h

/-- C5: when a binding resolves to a declared field and its validation
yields an error coded `ECInternal`, and every earlier binding resolves
and validates without an internal error, `ValidateStruct` aborts at once
with a single new internal error whose message is the field's resolved
path name, a colon and the original message; results of other fields are
discarded and never merged with it. -/
theorem validateStruct_internal_abort (fields : List FieldNode)
    (pre post : List FieldRules) (fr : FieldRules) (sf : FieldNode) (e : XErr)
    (hpre : ∀ fr2 ∈ pre, bindingBenign fields fr2)
    (hptr : fr.isPtr = true)
    (hsf : findStructField fields fr.addr fr.elemT = some sf)
    (hv : Validate fr.value fr.rules = some e)
    (hcode : e.getCode = ECInternal) :
    ValidateStruct (.ptrToStruct fields) (pre ++ fr :: post)
      = some (.leaf (getErrorFieldName fr.tag sf ++ ": " ++ e.errMsg) ECInternal) :=
  vsLoop_internal fields fr sf e hptr hsf hv hcode pre post 0 [] hpre

/-- Witness for C5: a second binding fails with `ErrInvSetup`-style
internal error after a benign first binding; the whole result is the
prefixed internal error, the first binding's outcome discarded. -/
theorem validateStruct_internal_abort_witness :
    ValidateStruct
        (.ptrToStruct [.mk "FStr" [] false 0 .tString none,
                       .mk "FInt" [] false 8 .tInt none])
        ([FieldRules.mk true 0 .tString (.strv "") ""
            [.requiredR true false (.leaf "cannot be blank" ECRequired)]]
          ++ FieldRules.mk true 8 .tInt (.intv 1) ""
              [.errorR true (.leaf "invalid setup" ECInternal)] :: [])
      = some (.leaf "FInt: invalid setup" ECInternal) :=
  validateStruct_internal_abort
    [.mk "FStr" [] false 0 .tString none, .mk "FInt" [] false 8 .tInt none]
    [FieldRules.mk true 0 .tString (.strv "") ""
      [.requiredR true false (.leaf "cannot be blank" ECRequired)]]
    [] (FieldRules.mk true 8 .tInt (.intv 1) ""
      [.errorR true (.leaf "invalid setup" ECInternal)])
    (.mk "FInt" [] false 8 .tInt none) (.leaf "invalid setup" ECInternal)
    (by
      intro fr2 h2
      rcases List.mem_singleton.mp h2 with rfl
      refine ⟨rfl, rfl, ?_⟩
      intro e he
      have : some (XErr.leaf "cannot be blank" ECRequired) = some e := by
        rw [← he]
        rfl
      cases this
      decide)
    rfl rfl rfl rfl

/-! ## Claims about the never-empty Fields invariant -/

theorem finishFields_ne_emptyFields (l : List (String × XErr)) :
    finishFields l ≠ some (.fields []) := by
  unfold finishFields
  split
  next h =>
      simp only [ne_eq, Option.some.injEq, XErr.fields.injEq]
      rintro rfl
      simp at h
  next h => simp

theorem mapLoop_ne_emptyFields (kt : GoType) (entries : List (GoVal × GoVal))
    (allowU : Bool) :
    ∀ keys ex ers, mapLoop kt entries allowU keys ex ers ≠ some (.fields [])
  | [], ex, ers => by
      simp only [mapLoop]
      exact finishFields_ne_emptyFields _
  | kr :: rest, ex, ers => by
      simp only [mapLoop]
      split
      next err heq =>
          split
          · simp
          · exact mapLoop_ne_emptyFields kt entries allowU rest _ _
      next heq => exact mapLoop_ne_emptyFields kt entries allowU rest _ _

theorem vsLoop_ne_emptyFields (fields : List FieldNode) :
    ∀ frs i ers, vsLoop fields frs i ers ≠ some (.fields [])
  | [], i, ers => by
      simp only [vsLoop]
      exact finishFields_ne_emptyFields _
  | fr :: rest, i, ers => by
      simp only [vsLoop]
      split
      · simp [errFieldPointer]
      · split
        · simp [errFieldNotFound]
        next sf hsf =>
            split
            next => exact vsLoop_ne_emptyFields fields rest _ _
            next err heq =>
                split
                · simp
                · split <;> exact vsLoop_ne_emptyFields fields rest _ _

theorem eachLoopSlice_all_none (rules : List Rule) :
    ∀ els i ers, (∀ e ∈ els, Validate (getInterface e) rules = none) →
      eachLoopSlice rules els i ers = ers
  | [], _, _, _ => rfl
  | e :: rest, i, ers, hall => by
      simp only [eachLoopSlice, hall e (by simp)]
      exact eachLoopSlice_all_none rules rest (i + 1) ers
        (fun x hx => hall x (by simp [hx]))

/-- A binding loop whose outcomes are all nil and whose processed keys
cover every not-yet-covered map key finishes with exactly the aggregate
it started from. -/
theorem mapLoop_covered (kt : GoType) (entries : List (GoVal × GoVal)) :
    ∀ keys ex ers, (∀ kr ∈ keys, keyOutcome kt entries kr = none) →
      (∀ x ∈ ex, ∃ kr ∈ keys, goValBeq x kr.key = true) →
      mapLoop kt entries false keys ex ers = finishFields ers
  | [], ex, ers, _, hcov => by
      have hex : ex = [] := by
        cases ex with
        | nil => rfl
        | cons x xs =>
            obtain ⟨kr, hkr, _⟩ := hcov x (by simp)
            exact absurd hkr (List.not_mem_nil kr)
      simp [mapLoop, hex]
  | kr :: rest, ex, ers, hnone, hcov => by
      simp only [mapLoop, hnone kr (by simp)]
      refine mapLoop_covered kt entries rest _ ers
        (fun x hx => hnone x (by simp [hx])) ?_
      intro x hx
      simp only [Bool.not_eq_true] at hx
      have hx2 := List.mem_filter.mp hx
      obtain ⟨kr2, hkr2, hbeq⟩ := hcov x hx2.1
      rcases List.mem_cons.mp hkr2 with rfl | hmem
      · exfalso
        have := hx2.2
        simp [hbeq] at this
      · exact ⟨kr2, hmem, hbeq⟩

/-- C7: no operation ever returns a non-nil empty `Fields` error —
`EachRule.Validate`, `MapRule.Validate` and `ValidateStruct` never
produce `some (fields [])`; `Each` over a zero-element slice, map or
array returns nil, `Each` whose element validations all pass returns
nil, and a `Map` whose bindings all succeed and cover every key of the
map returns nil. -/
theorem no_empty_fields_invariant :
    (∀ rules v, EachRule.Validate ⟨rules⟩ v ≠ some (.fields [])) ∧
    (∀ keys allowU v, MapRule.Validate ⟨keys, allowU⟩ v ≠ some (.fields [])) ∧
    (∀ arg frs, ValidateStruct arg frs ≠ some (.fields [])) ∧
    (∀ rules t, EachRule.Validate ⟨rules⟩ (.slicev t (some [])) = none) ∧
    (∀ rules kt et, EachRule.Validate ⟨rules⟩ (.mapv kt et (some [])) = none) ∧
    (∀ rules t, EachRule.Validate ⟨rules⟩ (.arrv t []) = none) ∧
    (∀ rules t els, (∀ e ∈ els, Validate (getInterface e) rules = none) →
      EachRule.Validate ⟨rules⟩ (.slicev t (some els)) = none) ∧
    (∀ kt et entries keys,
      (∀ kr ∈ keys, keyOutcome kt entries kr = none) →
      (∀ p ∈ entries, ∃ kr ∈ keys, goValBeq p.1 kr.key = true) →
      MapRule.Validate ⟨keys, false⟩ (.mapv kt et (some entries)) = none) := by
  refine ⟨?_, ?_, ?_, fun _ _ => rfl, fun _ _ _ => rfl, fun _ _ => rfl, ?_, ?_⟩
  · intro rules v
    cases v <;> simp only [EachRule.Validate] <;>
      first
        | exact finishFields_ne_emptyFields _
        | simp
  · intro keys allowU v
    simp only [MapRule.Validate]
    split
    · simp
    · exact mapLoop_ne_emptyFields _ _ _ _ _ _
    · simp [ErrNotMapPtr]
  · intro arg frs
    cases arg with
    | notStructPtr => simp [ValidateStruct, ErrNotStructPtr]
    | nilPtr => simp [ValidateStruct]
    | ptrToStruct fields => exact vsLoop_ne_emptyFields fields frs 0 []
  · intro rules t els hall
    show finishFields (eachLoopSlice rules els 0 []) = none
    rw [eachLoopSlice_all_none rules els 0 [] hall]
    rfl
  · intro kt et entries keys hnone hcov
    show mapLoop kt entries false keys (entries.map (fun p => p.1)) [] = none
    rw [mapLoop_covered kt entries keys _ [] hnone]
    · rfl
    · intro x hx
      obtain ⟨p, hp, hpx⟩ := List.mem_map.mp hx
      subst hpx
      exact hcov p hp

/-- Witness for C7: the hypotheses of the all-pass conjuncts discharged
on a one-element slice and a one-binding covered map. -/
theorem no_empty_fields_invariant_witness :
    EachRule.Validate ⟨[Rule.noopR]⟩ (.slicev .tString (some [.strv "a"])) = none ∧
    MapRule.Validate ⟨[⟨.strv "K", true, []⟩], false⟩
      (.mapv .tString .tString (some [(.strv "K", .strv "v")])) = none :=
  ⟨no_empty_fields_invariant.2.2.2.2.2.2.1 [Rule.noopR] .tString [.strv "a"]
      (fun e he => by rcases List.mem_singleton.mp he with rfl; rfl),
    no_empty_fields_invariant.2.2.2.2.2.2.2 .tString .tString
      [(.strv "K", .strv "v")] [⟨.strv "K", true, []⟩]
      (fun kr hkr => by rcases List.mem_singleton.mp hkr with rfl; rfl)
      (fun p hp => by
        rcases List.mem_singleton.mp hp with rfl
        exact ⟨⟨.strv "K", true, []⟩, by simp, rfl⟩)⟩

/-! ## Claims about Each -/

/-- Decimal index keys of slice/array elements, starting at a given
index. -/
def enumKeys : Nat → List GoVal → List (String × GoVal)
  | _, [] => []
  | i, e :: rest => (toString i, e) :: enumKeys (i + 1) rest

/-- Spec-side view of an iterable as its keyed elements: a map is keyed
by `mapErrKey` of its keys, a slice or array by decimal indices; a
non-iterable value has no such view.  Follows the amended C2 wording. -/
def elementsOf : GoVal → Option (List (String × GoVal))
  | .mapv _ _ entO => some ((entO.getD []).map (fun p => (mapErrKey p.1, p.2)))
  | .slicev _ elsO => some (enumKeys 0 (elsO.getD []))
  | .arrv _ els => some (enumKeys 0 els)
  | _ => none

/-- Spec-side restatement of `EachRule.Validate` per the amended C2: a
non-iterable input is a type error (`ECInvType`); otherwise every keyed
element passes through `getInterface` (a nil pointer or nil interface
element becomes the absence-of-value nil, any other element — including
a non-nil pointer — is handed to the rules unchanged), the rule set runs
against it, and the non-nil outcomes are aggregated under their keys,
an empty aggregate normalising to nil. -/
def eachSpec (rules : List Rule) (v : GoVal) : Option XErr :=
  match elementsOf v with
  | none => some (.leaf "must be an iterable" ECInvType)
  | some kvs =>
      finishFields (kvs.foldl (fun acc p =>
        match Validate (getInterface p.2) rules with
        | some err => upsert acc p.1 err
        | none => acc) [])

theorem eachLoopSlice_eq_fold (rules : List Rule) :
    ∀ els i ers, eachLoopSlice rules els i ers =
      (enumKeys i els).foldl (fun acc p =>
        match Validate (getInterface p.2) rules with
        | some err => upsert acc p.1 err
        | none => acc) ers
  | [], _, _ => rfl
  | e :: rest, i, ers => by
      simp only [eachLoopSlice, enumKeys, List.foldl_cons]
      cases Validate (getInterface e) rules <;>
        exact eachLoopSlice_eq_fold rules rest (i + 1) _

theorem eachLoopMap_eq_fold (rules : List Rule) :
    ∀ ents ers, eachLoopMap rules ents ers =
      (ents.map (fun p => (mapErrKey p.1, p.2))).foldl (fun acc p =>
        match Validate (getInterface p.2) rules with
        | some err => upsert acc p.1 err
        | none => acc) ers
  | [], _ => rfl
  | (k, e) :: rest, ers => by
      simp only [eachLoopMap, List.map_cons, List.foldl_cons]
      cases Validate (getInterface e) rules <;>
        exact eachLoopMap_eq_fold rules rest _

/-- C2 (amended): `EachRule.Validate` coincides with the spec-side
`eachSpec` on every input — iteration by key or index, each element
passed through `getInterface` (only nil pointer/interface elements
become nil; non-nil pointers are not dereferenced), per-key aggregation
into a `Fields` error, and an `ECInvType` type error on non-iterable
input. -/
theorem eachRule_validate_eq_spec (rules : List Rule) (v : GoVal) :
    EachRule.Validate ⟨rules⟩ v = eachSpec rules v := by
  cases v <;>
    simp only [EachRule.Validate, eachSpec, elementsOf,
      eachLoopSlice_eq_fold, eachLoopMap_eq_fold]

/-- C2 (counterexample): a one-element slice holding a non-nil pointer
to the string `"abc"`, validated with `Equal("abc")`: the dereferenced
element would pass the rule (second conjunct), so under the claim —
every element dereferenced before the rules run — the result would be
nil; the code instead reports the element as unequal at index `"0"`,
because the rule receives the pointer itself. -/
theorem each_deref_claim_counterexample :
    EachRule.Validate ⟨[.equalR true (.strv "abc") (.leaf "not equal" ECNotEqual)]⟩
        (.slicev (.tPtr .tString) (some [.ptrv .tString (some (.strv "abc"))]))
      = some (.fields [("0", .leaf "not equal" ECNotEqual)]) ∧
    Validate (.strv "abc") [.equalR true (.strv "abc") (.leaf "not equal" ECNotEqual)]
      = none :=
  ⟨rfl, rfl⟩

/-! ## Claims about MapRule key bindings -/

/-- C6 (counterexample): a map with declared key type `any` and a key
binding whose key is the string `"foo"`: the binding's key is assignable
to the map's key type (first conjunct), so under the claim the required
absent key would be reported as `ECMapKeyMissing` under `"foo"`; the
code instead short-circuits with an internal key-type error, because it
tests assignability in the opposite direction (`any` is not assignable
to `string`). -/
theorem map_key_assignability_counterexample :
    GoType.assignableTo .tString .tAny = true ∧
    MapRule.Validate ⟨[⟨.strv "foo", false, []⟩], true⟩ (.mapv .tAny .tAny (some []))
      = some (.leaf "foo: key not the correct type" ECInternal) ∧
    MapRule.Validate ⟨[⟨.strv "foo", false, []⟩], true⟩ (.mapv .tAny .tAny (some []))
      ≠ some (.fields [("foo", ErrKeyMissing)]) := by
  refine ⟨rfl, rfl, fun hcontra => ?_⟩
  have hval : MapRule.Validate ⟨[⟨.strv "foo", false, []⟩], true⟩
      (.mapv .tAny .tAny (some []))
      = some (XErr.leaf "foo: key not the correct type" ECInternal) := rfl
  rw [hval] at hcontra
  exact XErr.noConfusion (Option.some.inj hcontra)

/-- A binding whose loop outcome is an internal-coded error. -/
def internalOutcome (kt : GoType) (entries : List (GoVal × GoVal)) (kr : KeyRules) : Prop :=
  ∃ e, keyOutcome kt entries kr = some e ∧ e.getCode = ECInternal

/-- The binding loop aborts on the first internal-coded outcome,
returning a fresh internal error prefixed with the key's name. -/
theorem mapLoop_first_internal (kt : GoType) (entries : List (GoVal × GoVal))
    (allowU : Bool) (kr : KeyRules) (e : XErr)
    (ho : keyOutcome kt entries kr = some e) (hc : e.getCode = ECInternal) :
    ∀ pre post ex ers, (∀ kr2 ∈ pre, ¬ internalOutcome kt entries kr2) →
      mapLoop kt entries allowU (pre ++ kr :: post) ex ers
        = some (.leaf (getErrorKeyName kr.key ++ ": " ++ e.errMsg) ECInternal)
  | [], post, ex, ers, _ => by simp [mapLoop, ho, hc]
  | q :: pt, post, ex, ers, hpre => by
      rw [List.cons_append]
      cases hoq : keyOutcome kt entries q with
      | none =>
          simp only [mapLoop, hoq]
          exact mapLoop_first_internal kt entries allowU kr e ho hc pt post _ _
            (fun x hx => hpre x (by simp [hx]))
      | some err =>
          have hne : err.getCode ≠ ECInternal :=
            fun h => hpre q (by simp) ⟨err, hoq, h⟩
          simp only [mapLoop, hoq, if_neg hne]
          exact mapLoop_first_internal kt entries allowU kr e ho hc pt post _ _
            (fun x hx => hpre x (by simp [hx]))

/-- The aggregate update of one binding in the loop. -/
def applyBinding (kt : GoType) (entries : List (GoVal × GoVal))
    (a : List (String × XErr)) (kr : KeyRules) : List (String × XErr) :=
  match keyOutcome kt entries kr with
  | some err => upsert a (getErrorKeyName kr.key) err
  | none => a

/-- The not-yet-covered map keys after all bindings are processed. -/
def remKeys (keys : List KeyRules) (ex : List GoVal) : List GoVal :=
  keys.foldl (fun a kr => removeKey a kr.key) ex

/-- The extras epilogue of the loop. -/
def extrasFold (xs : List GoVal) (ers : List (String × XErr)) : List (String × XErr) :=
  xs.foldl (fun a x => upsert a (getErrorKeyName x) ErrKeyUnexpected) ers

/-- With no internal-coded outcome, the loop runs to the end: the final
aggregate folds every binding's outcome, then (unless unknown keys are
allowed) one key-unexpected entry per still-uncovered map key, and the
result is the normalised aggregate. -/
theorem mapLoop_no_internal (kt : GoType) (entries : List (GoVal × GoVal))
    (allowU : Bool) :
    ∀ keys ex ers, (∀ kr ∈ keys, ¬ internalOutcome kt entries kr) →
      mapLoop kt entries allowU keys ex ers =
        finishFields (if allowU then keys.foldl (applyBinding kt entries) ers
          else extrasFold (remKeys keys ex) (keys.foldl (applyBinding kt entries) ers))
  | [], ex, ers, _ => by
      cases allowU <;> simp [mapLoop, remKeys, extrasFold]
  | kr :: rest, ex, ers, hni => by
      have hrec := fun ex2 ers2 => mapLoop_no_internal kt entries allowU rest ex2 ers2
        (fun x hx => hni x (by simp [hx]))
      cases ho : keyOutcome kt entries kr with
      | none =>
          simp only [mapLoop, ho]
          rw [hrec]
          have hab : applyBinding kt entries ers kr = ers := by
            simp [applyBinding, ho]
          cases allowU <;> simp [remKeys, hab]
      | some err =>
          have hne : err.getCode ≠ ECInternal :=
            fun h => hni kr (by simp) ⟨err, ho, h⟩
          simp only [mapLoop, ho, if_neg hne]
          rw [hrec]
          have hab : applyBinding kt entries ers kr
              = upsert ers (getErrorKeyName kr.key) err := by
            simp [applyBinding, ho]
          cases allowU <;> simp [remKeys, hab]

theorem lookupF_upsert_self : ∀ l k e, lookupF (upsert l k e) k = some e
  | [], k, e => by simp [upsert, lookupF]
  | (k2, e2) :: rest, k, e => by
      by_cases h : k2 = k
      · simp [upsert, lookupF, h]
      · simp [upsert, lookupF, h, lookupF_upsert_self rest k e]

theorem lookupF_upsert_ne : ∀ l k2 e k, k2 ≠ k →
    lookupF (upsert l k2 e) k = lookupF l k
  | [], k2, e, k, hne => by
      simp [upsert, lookupF, hne]
  | (k3, e3) :: rest, k2, e, k, hne => by
      by_cases h : k3 = k2
      · subst h
        simp [upsert, lookupF, hne]
      · by_cases h3 : k3 = k
        · simp [upsert, lookupF, h, h3, Ne.symm hne]
        · simp [upsert, lookupF, h, h3, lookupF_upsert_ne rest k2 e k hne]

theorem extrasFold_cons (x : GoVal) (rest : List GoVal) (ers : List (String × XErr)) :
    extrasFold (x :: rest) ers
      = extrasFold rest (upsert ers (getErrorKeyName x) ErrKeyUnexpected) := rfl

theorem lookupF_extrasFold_ne : ∀ xs ers k, (∀ x ∈ xs, getErrorKeyName x ≠ k) →
    lookupF (extrasFold xs ers) k = lookupF ers k
  | [], _, _, _ => rfl
  | x :: rest, ers, k, hall => by
      rw [extrasFold_cons,
        lookupF_extrasFold_ne rest _ k (fun y hy => hall y (by simp [hy]))]
      exact lookupF_upsert_ne _ _ _ _ (hall x (by simp))

theorem bindFold_cons (kt : GoType) (entries : List (GoVal × GoVal))
    (kr : KeyRules) (rest : List KeyRules) (ers : List (String × XErr)) :
    List.foldl (applyBinding kt entries) ers (kr :: rest)
      = List.foldl (applyBinding kt entries) (applyBinding kt entries ers kr) rest := rfl

theorem lookupF_bindFold_ne (kt : GoType) (entries : List (GoVal × GoVal)) :
    ∀ (keys : List KeyRules) (ers : List (String × XErr)) (k : String),
      (∀ kr ∈ keys, getErrorKeyName kr.key ≠ k) →
      lookupF (List.foldl (applyBinding kt entries) ers keys) k = lookupF ers k
  | [], _, _, _ => rfl
  | kr :: rest, ers, k, hall => by
      rw [bindFold_cons,
        lookupF_bindFold_ne kt entries rest _ k (fun y hy => hall y (by simp [hy]))]
      unfold applyBinding
      cases keyOutcome kt entries kr with
      | none => rfl
      | some err => exact lookupF_upsert_ne _ _ _ _ (hall kr (by simp))

theorem lookupF_extrasFold_keeps : ∀ xs ers n,
    lookupF ers n = some ErrKeyUnexpected →
    lookupF (extrasFold xs ers) n = some ErrKeyUnexpected
  | [], _, _, h => h
  | x :: rest, ers, n, h => by
      rw [extrasFold_cons]
      refine lookupF_extrasFold_keeps rest _ n ?_
      by_cases hx : getErrorKeyName x = n
      · rw [← hx]
        exact lookupF_upsert_self ers _ _
      · rw [lookupF_upsert_ne ers _ _ n hx]
        exact h

theorem lookupF_extrasFold_mem : ∀ xs ers k, k ∈ xs →
    lookupF (extrasFold xs ers) (getErrorKeyName k) = some ErrKeyUnexpected
  | [], _, k, hk => absurd hk (List.not_mem_nil k)
  | x :: rest, ers, k, hk => by
      rcases List.mem_cons.mp hk with rfl | hmem
      · rw [extrasFold_cons]
        exact lookupF_extrasFold_keeps rest _ _ (lookupF_upsert_self ers _ _)
      · rw [extrasFold_cons]
        exact lookupF_extrasFold_mem rest _ k hmem

theorem mem_remKeys : ∀ keys ex (k : GoVal), k ∈ ex →
    (∀ kr ∈ keys, goValBeq k kr.key = false) → k ∈ remKeys keys ex
  | [], _, _, hk, _ => hk
  | kr :: rest, ex, k, hk, hall => by
      simp only [remKeys, List.foldl_cons]
      refine mem_remKeys rest _ k ?_ (fun x hx => hall x (by simp [hx]))
      exact List.mem_filter.mpr ⟨hk, by simp [hall kr (by simp)]⟩

theorem lookupF_some_ne_nil {l : List (String × XErr)} {k : String} {e : XErr}
    (h : lookupF l k = some e) : l ≠ [] := by
  intro hl
  subst hl
  simp [lookupF] at h

theorem remKeys_subset : ∀ (keys : List KeyRules) (ex : List GoVal) (x : GoVal),
    x ∈ remKeys keys ex → x ∈ ex
  | [], _, _, hx => hx
  | kr :: rest, ex, x, hx => by
      have hx2 := remKeys_subset rest (removeKey ex kr.key) x hx
      exact (List.mem_filter.mp hx2).1

theorem finishFields_of_lookup {l : List (String × XErr)} {k : String} {e : XErr}
    (h : lookupF l k = some e) : finishFields l = some (.fields l) := by
  unfold finishFields
  rw [if_pos (List.length_pos.mpr (lookupF_some_ne_nil h))]

/-- C6 (amended): for `MapRule.Validate` on a non-nil map — (a) a key
binding such that the map's declared key type is not assignable to the
binding key's type yields an internal error (`ECInternal`),
short-circuiting the whole validation with the key's name as a message
prefix, provided no earlier binding already produced an internal
outcome; (b) a binding whose key type is accepted, whose key is absent
from the map and which is not marked optional contributes the
key-missing error (`ECMapKeyMissing`) under that key's name, provided no
binding produces an internal outcome and no later binding or map key
reuses the name; (c) unless `AllowUnknown` is set, every map key covered
by no binding contributes a key-unexpected error (`ECMapKeyUnexpected`)
under that key's name, provided no binding produces an internal
outcome. -/
theorem mapRule_key_binding_semantics (kt et : GoType)
    (entries : List (GoVal × GoVal)) (keys : List KeyRules) (allowU : Bool) :
    (∀ pre kr post, keys = pre ++ kr :: post →
      (∀ kr2 ∈ pre, ¬ internalOutcome kt entries kr2) →
      kt.assignableTo (goTypeOf kr.key) = false →
      MapRule.Validate ⟨keys, allowU⟩ (.mapv kt et (some entries))
        = some (.leaf (getErrorKeyName kr.key ++ ": " ++ ErrInvKeyType.errMsg)
            ECInternal)) ∧
    (∀ pre kr post, keys = pre ++ kr :: post →
      (∀ kr2 ∈ keys, ¬ internalOutcome kt entries kr2) →
      kt.assignableTo (goTypeOf kr.key) = true →
      lookupEntry entries kr.key = none →
      kr.optional = false →
      (∀ kr2 ∈ post, getErrorKeyName kr2.key ≠ getErrorKeyName kr.key) →
      (∀ p ∈ entries, getErrorKeyName p.1 ≠ getErrorKeyName kr.key) →
      ∃ l, MapRule.Validate ⟨keys, allowU⟩ (.mapv kt et (some entries))
          = some (.fields l) ∧
        lookupF l (getErrorKeyName kr.key) = some ErrKeyMissing) ∧
    (allowU = false →
      ∀ k ev, (k, ev) ∈ entries →
      (∀ kr2 ∈ keys, ¬ internalOutcome kt entries kr2) →
      (∀ kr2 ∈ keys, goValBeq k kr2.key = false) →
      ∃ l, MapRule.Validate ⟨keys, allowU⟩ (.mapv kt et (some entries))
          = some (.fields l) ∧
        lookupF l (getErrorKeyName k) = some ErrKeyUnexpected) := by
  refine ⟨?_, ?_, ?_⟩
  · rintro pre kr post rfl hpre hassign
    have ho : keyOutcome kt entries kr = some ErrInvKeyType := by
      simp [keyOutcome, hassign]
    exact mapLoop_first_internal kt entries allowU kr ErrInvKeyType ho rfl
      pre post _ _ hpre
  · rintro pre kr post rfl hni hassign hlook hopt hpost hentries
    have ho : keyOutcome kt entries kr = some ErrKeyMissing := by
      simp [keyOutcome, hassign, hlook, hopt]
    show ∃ l, mapLoop kt entries allowU (pre ++ kr :: post)
        (if !allowU then entries.map (fun p => p.1) else []) [] = some (.fields l) ∧ _
    rw [mapLoop_no_internal kt entries allowU _ _ [] hni]
    have hF : lookupF
        (List.foldl (applyBinding kt entries) [] (pre ++ kr :: post))
        (getErrorKeyName kr.key) = some ErrKeyMissing := by
      rw [List.foldl_append, bindFold_cons,
        lookupF_bindFold_ne kt entries post _ _ hpost]
      unfold applyBinding
      rw [ho]
      exact lookupF_upsert_self _ _ _
    cases allowU with
    | true =>
        refine ⟨_, ?_, hF⟩
        simp only [if_true]
        exact finishFields_of_lookup hF
    | false =>
        have hex : lookupF
            (extrasFold (remKeys (pre ++ kr :: post)
              (entries.map (fun p => p.1)))
              (List.foldl (applyBinding kt entries) [] (pre ++ kr :: post)))
            (getErrorKeyName kr.key) = some ErrKeyMissing := by
          rw [lookupF_extrasFold_ne _ _ _ ?_]
          · exact hF
          · intro x hx
            obtain ⟨p, hp, hpx⟩ := List.mem_map.mp
              (remKeys_subset _ _ x hx)
            subst hpx
            exact hentries p hp
        exact ⟨_, by simpa using finishFields_of_lookup hex, hex⟩
  · rintro rfl k ev hkmem hni hbeq
    show ∃ l, mapLoop kt entries false keys
        (if !false then entries.map (fun p => p.1) else []) [] = some (.fields l) ∧ _
    rw [mapLoop_no_internal kt entries false keys _ [] hni]
    have hkex : k ∈ entries.map (fun p => p.1) :=
      List.mem_map.mpr ⟨(k, ev), hkmem, rfl⟩
    have hkrem : k ∈ remKeys keys (entries.map (fun p => p.1)) :=
      mem_remKeys keys _ k hkex hbeq
    have hlook := lookupF_extrasFold_mem
      (remKeys keys (entries.map (fun p => p.1)))
      (List.foldl (applyBinding kt entries) [] keys) k hkrem
    exact ⟨_, by simpa using finishFields_of_lookup hlook, hlook⟩

/-- Witness for C6: a one-binding map rule on a one-entry map — the
required absent key `"X"` is reported missing and the uncovered key
`"K"` unexpected; and the type-mismatch short-circuit at a binding whose
key type the map's key type is not assignable to. -/
theorem mapRule_key_binding_semantics_witness :
    MapRule.Validate ⟨[⟨.strv "X", false, []⟩], false⟩
        (.mapv .tString .tAny (some [(.strv "K", .strv "v")]))
      = some (.fields [("X", ErrKeyMissing), ("K", ErrKeyUnexpected)]) ∧
    MapRule.Validate ⟨[⟨.intv 123, false, []⟩], true⟩
        (.mapv .tString .tAny (some [(.strv "K", .strv "v")]))
      = some (.leaf ("123" ++ ": " ++ "key not the correct type") ECInternal) := by
  have hni : ∀ kr2 ∈ [(⟨.strv "X", false, []⟩ : KeyRules)],
      ¬ internalOutcome .tString [(.strv "K", .strv "v")] kr2 := by
    intro kr2 h2
    rcases List.mem_singleton.mp h2 with rfl
    rintro ⟨e, he, hc⟩
    have hx : some ErrKeyMissing = some e :=
      (rfl : keyOutcome .tString [(.strv "K", .strv "v")]
        ⟨.strv "X", false, []⟩ = some ErrKeyMissing).symm.trans he
    cases Option.some.inj hx
    exact absurd hc (by decide)
  obtain ⟨l, hl, hlook⟩ :=
    (mapRule_key_binding_semantics .tString .tAny [(.strv "K", .strv "v")]
      [⟨.strv "X", false, []⟩] false).2.1
      [] ⟨.strv "X", false, []⟩ [] rfl hni rfl rfl rfl
      (fun kr2 h2 => absurd h2 (List.not_mem_nil kr2))
      (fun p hp => by
        rcases List.mem_singleton.mp hp with rfl
        decide)
  refine ⟨rfl, ?_⟩
  exact (mapRule_key_binding_semantics .tString .tAny [(.strv "K", .strv "v")]
      [⟨.intv 123, false, []⟩] true).1
    [] ⟨.intv 123, false, []⟩ [] rfl
    (fun kr2 h2 => absurd h2 (List.not_mem_nil kr2)) rfl

end Verax
